import Mathlib

/-!
Verification of the stream-supervision layer of the camera visualizer /
recorder repository.

The development shallowly embeds the two supervisors of the repository:

* `app.py` — class `CameraStream`: the per-camera frame cache
  (`last_frame` / `last_frame_time`, `get_frame`), the capture loop
  `_capture_frames` and `stop`;
* `recorder.py` — class `RTSPRecorder`: the per-camera recording process
  table (`self.processes`), `start_recording`, `stop_recording`,
  `stop_all_recordings`, `check_and_restart_recordings` and the `run` loop.

Time stamps are embedded as integers (Python `time.time()` floats are only
compared by subtraction against constant thresholds), process ids and
capture-handle ids as naturals, and subprocess / OpenCV outcomes as explicit
nondeterministic parameters.
-/

namespace CameraVis

/-! ## Frame cache (`app.py`, class `CameraStream`)

A frame is a pixel buffer together with a buffer identity; `numpy`'s
`.copy()` is embedded as `Frame.copy`, which allocates a caller-supplied
fresh buffer id and duplicates the pixel data. -/

structure Frame where
  buf : Nat
  data : List Nat
deriving DecidableEq, Repr

/-- `ndarray.copy()`: same pixel data, fresh buffer. `fresh` is the identity
of the newly allocated buffer. -/
def Frame.copy (fresh : Nat) (f : Frame) : Frame := ⟨fresh, f.data⟩

/-- The mutable part of `CameraStream` relevant to the frame cache:
`self.last_frame` and `self.last_frame_time` (initially `None` and `0`,
see `CameraStream.__init__`). -/
structure CameraCacheState where
  last_frame : Option Frame
  last_frame_time : Int
deriving DecidableEq, Repr

/-- `CameraStream.__init__`: `self.last_frame = None`, `self.last_frame_time = 0`. -/
def initCache : CameraCacheState := ⟨none, 0⟩

/-- One successful read in `_capture_frames` (the `if ret:` branch):
`self.last_frame = frame; self.last_frame_time = time.time()`. -/
def write_frame (_s : CameraCacheState) (f : Frame) (t : Int) : CameraCacheState :=
  ⟨some f, t⟩

/-- A sequence of successful frame writes applied in order. -/
def apply_writes (s : CameraCacheState) (ws : List (Frame × Int)) : CameraCacheState :=
  ws.foldl (fun a p => write_frame a p.1 p.2) s

/-- `CameraStream.get_frame`:
`if self.last_frame is not None and (time.time() - self.last_frame_time) < 10:
return self.last_frame.copy()` else `return None`. -/
def get_frame (s : CameraCacheState) (now : Int) (fresh : Nat) : Option Frame :=
  match s.last_frame with
  | some f => if now - s.last_frame_time < 10 then some (Frame.copy fresh f) else none
  | none => none

theorem apply_writes_append_last (ws : List (Frame × Int)) (a : Frame × Int) :
    ∀ s, apply_writes s (ws ++ [a]) = ⟨some a.1, a.2⟩ := by
  induction ws with
  | nil => intro s; rfl
  | cons x t ih => intro s; simpa [apply_writes, List.foldl_cons] using ih (write_frame s x.1 x.2)

/-! ## Status cadence of the recorder main loop (`recorder.py`, `run`)

The `run` loop sleeps `ffmpeg_reconnect_delay` seconds per iteration and
prints the status line only when `int(time.time()) % 300 == 0` holds at the
iteration's check. We model the wall-clock times (in whole seconds) at which
the loop performs this check. -/

/-- The condition `int(time.time()) % 300 == 0` from `run`. -/
def emits_status (t : Nat) : Bool := t % 300 == 0

/-- Times at which the `run` loop prints the status line, given the
wall-clock times of its periodic checks. -/
def run_status_times (ticks : List Nat) : List Nat := ticks.filter emits_status

/-- Check times of a loop whose first check happens at wall-clock time `t0`
and whose period is `d` (the configured reconnect delay), for `n` iterations. -/
def loop_ticks (t0 d n : Nat) : List Nat := (List.range n).map (fun i => t0 + i * d)

/-! ## Recorder process table (`recorder.py`, class `RTSPRecorder`)

`self.processes` is a Python dict mapping camera id to subprocess handle;
we embed it as an association list with unique keys, a handle being its
process id (`Nat`). The status of each process id is an environment
parameter `Nat → PStatus`; `poll` embeds `Popen.poll()` (`None` while
running, the exit code after termination). -/

/-- Status of an external subprocess. -/
inductive PStatus where
  | running : PStatus
  | exited : Int → PStatus
deriving DecidableEq, Repr

/-- `Popen.poll()`: `None` while the process runs, else its return code. -/
def poll (st : PStatus) : Option Int :=
  match st with
  | .running => none
  | .exited c => some c

/-- The process table `self.processes`. -/
abbrev Table := List (String × Nat)

/-- Dict lookup `self.processes[camera_id]` / membership `camera_id in self.processes`. -/
def lookupT {α : Type} : List (String × α) → String → Option α
  | [], _ => none
  | (k, v) :: t, c => if k = c then some v else lookupT t c

/-- Dict deletion `del self.processes[camera_id]`. -/
def removeT {α : Type} : List (String × α) → String → List (String × α)
  | [], _ => []
  | (k, v) :: t, c => if k = c then removeT t c else (k, v) :: removeT t c

/-- Dict assignment `self.processes[camera_id] = process`. -/
def setT {α : Type} (t : List (String × α)) (c : String) (v : α) : List (String × α) :=
  (c, v) :: removeT t c

/-- `list(self.processes.keys())`. -/
def keysT {α : Type} (t : List (String × α)) : List String := t.map Prod.fst

theorem lookupT_removeT_self {α : Type} (t : List (String × α)) (c : String) :
    lookupT (removeT t c) c = none := by
  induction t with
  | nil => rfl
  | cons x t ih =>
    obtain ⟨k, v⟩ := x
    by_cases h : k = c
    · rw [removeT, if_pos h]; exact ih
    · rw [removeT, if_neg h, lookupT, if_neg h]; exact ih

theorem lookupT_removeT_ne {α : Type} (t : List (String × α)) {c c' : String}
    (h : c' ≠ c) : lookupT (removeT t c) c' = lookupT t c' := by
  induction t with
  | nil => rfl
  | cons x t ih =>
    obtain ⟨k, v⟩ := x
    by_cases hk : k = c
    · rw [removeT, if_pos hk, lookupT, if_neg (by rw [hk]; exact fun hc => h hc.symm)]
      exact ih
    · rw [removeT, if_neg hk, lookupT, lookupT]
      by_cases hk' : k = c'
      · rw [if_pos hk', if_pos hk']
      · rw [if_neg hk', if_neg hk']; exact ih

theorem lookupT_setT_self {α : Type} (t : List (String × α)) (c : String) (v : α) :
    lookupT (setT t c v) c = some v := by
  rw [setT, lookupT, if_pos rfl]

theorem lookupT_setT_ne {α : Type} (t : List (String × α)) {c c' : String} (v : α)
    (h : c' ≠ c) : lookupT (setT t c v) c' = lookupT t c' := by
  rw [setT, lookupT, if_neg (fun hc => h hc.symm)]
  exact lookupT_removeT_ne t h

theorem not_mem_keysT_removeT {α : Type} (t : List (String × α)) (c : String) :
    c ∉ keysT (removeT t c) := by
  induction t with
  | nil => intro hc; exact absurd hc (List.not_mem_nil c)
  | cons x t ih =>
    obtain ⟨k, v⟩ := x
    by_cases h : k = c
    · rw [removeT, if_pos h]; exact ih
    · rw [removeT, if_neg h, keysT, List.map_cons]
      intro hc
      rcases List.mem_cons.mp hc with hc | hc
      · exact h hc.symm
      · exact ih hc

theorem mem_keysT_removeT {α : Type} (t : List (String × α)) (c a : String)
    (h : a ∈ keysT (removeT t c)) : a ∈ keysT t := by
  induction t with
  | nil => exact h
  | cons x t ih =>
    obtain ⟨k, v⟩ := x
    rw [keysT, List.map_cons]
    by_cases hk : k = c
    · rw [removeT, if_pos hk] at h
      exact List.mem_cons.mpr (Or.inr (ih h))
    · rw [removeT, if_neg hk, keysT, List.map_cons] at h
      rcases List.mem_cons.mp h with h | h
      · exact List.mem_cons.mpr (Or.inl h)
      · exact List.mem_cons.mpr (Or.inr (ih h))

theorem keysT_removeT_nodup {α : Type} (t : List (String × α)) (c : String)
    (h : (keysT t).Nodup) : (keysT (removeT t c)).Nodup := by
  induction t with
  | nil => exact h
  | cons x t ih =>
    obtain ⟨k, v⟩ := x
    rw [keysT, List.map_cons] at h
    have htail := (List.nodup_cons.mp h).2
    have hhead := (List.nodup_cons.mp h).1
    by_cases hk : k = c
    · rw [removeT, if_pos hk]; exact ih htail
    · rw [removeT, if_neg hk, keysT, List.map_cons]
      exact List.nodup_cons.mpr
        ⟨fun hm => hhead (mem_keysT_removeT t c k hm), ih htail⟩

theorem keysT_setT_nodup {α : Type} (t : List (String × α)) (c : String) (v : α)
    (h : (keysT t).Nodup) : (keysT (setT t c v)).Nodup := by
  rw [setT, keysT, List.map_cons]
  exact List.nodup_cons.mpr ⟨not_mem_keysT_removeT t c, keysT_removeT_nodup t c h⟩

/-! ## Recorder operations (`recorder.py`) -/

/-- One camera entry of `config.json` (`id`, `name`, `rtsp_url`, `enabled`). -/
structure Camera where
  id : String
  name : String
  rtsp_url : String
  enabled : Bool
deriving DecidableEq, Repr

/-- Log / side-effect events emitted by the recorder operations. -/
inductive REvent where
  | warnAlreadyRecording : String → REvent
  | spawned : String → Nat → REvent
  | immediateFailure : String → Nat → REvent
  | registered : String → Nat → REvent
  | toolMissing : REvent
  | launchError : String → REvent
  | completedOk : String → REvent
  | segmentFailed : String → REvent
  | terminated : Nat → REvent
  | killed : Nat → REvent
deriving DecidableEq, Repr

/-- Python exceptions relevant to `start_recording`'s `try` block. -/
inductive PyExn where
  | fileNotFound : PyExn
  | other : PyExn
deriving DecidableEq, Repr

/-- Nondeterministic outcome of one `subprocess.Popen` launch attempt:
`FFmpeg` missing (`FileNotFoundError`), some other launch exception, or a
spawned process with id `pid` whose status at the single `poll()` performed
after the 2-second settle sleep is `settle`. -/
inductive LaunchOutcome where
  | raiseToolMissing : LaunchOutcome
  | raiseOther : LaunchOutcome
  | spawn : Nat → PStatus → LaunchOutcome
deriving DecidableEq, Repr

/-- The body of the `try` block in `start_recording` (lines 115-139): launch
FFmpeg, sleep 2 seconds, poll once; if the process already exited, drain its
output, log, and return without registering; otherwise register the handle.
A raised exception is an `Except.error`. -/
def start_attempt (t : Table) (cam : String) (lo : LaunchOutcome) :
    Except PyExn (Table × List REvent) :=
  match lo with
  | .raiseToolMissing => .error .fileNotFound
  | .raiseOther => .error .other
  | .spawn pid settle =>
    match poll settle with
    | some _ => .ok (t, [.spawned cam pid, .immediateFailure cam pid])
    | none => .ok (setT t cam pid, [.spawned cam pid, .registered cam pid])

/-- The `except FileNotFoundError` / `except Exception` handlers of
`start_recording` (lines 141-145): both log and return normally. -/
def handle_launch (t : Table) (cam : String) (e : Except PyExn (Table × List REvent)) :
    Except PyExn (Table × List REvent) :=
  match e with
  | .ok r => .ok r
  | .error .fileNotFound => .ok (t, [.toolMissing])
  | .error .other => .ok (t, [.launchError cam])

/-- `RTSPRecorder.start_recording` as the Python function boundary: the
initial guard `if camera_id in self.processes and
self.processes[camera_id].poll() is None:` logs a warning and returns,
otherwise the `try` block runs under the two handlers. An `Except.error`
result would mean an exception escaped the function. -/
def start_recording_exc (t : Table) (status : Nat → PStatus) (cam : String)
    (lo : LaunchOutcome) : Except PyExn (Table × List REvent) :=
  match lookupT t cam with
  | some p =>
    if poll (status p) = none then .ok (t, [.warnAlreadyRecording cam])
    else handle_launch t cam (start_attempt t cam lo)
  | none => handle_launch t cam (start_attempt t cam lo)

/-- `start_recording`'s effect on the process table and log. -/
def start_recording (t : Table) (status : Nat → PStatus) (cam : String)
    (lo : LaunchOutcome) : Table × List REvent :=
  match start_recording_exc t status cam lo with
  | .ok r => r
  | .error _ => (t, [])

/-- `RTSPRecorder.stop_recording` (lines 147-163): if a handle is registered
and still running, `terminate()`, `wait(timeout=10)`, and on
`TimeoutExpired` `kill()`; then `del self.processes[camera_id]`
unconditionally. `gw` tells whether the graceful wait finished in time. -/
def stop_recording (t : Table) (status : Nat → PStatus) (cam : String)
    (gw : Bool) : Table × (Nat → PStatus) × List REvent :=
  match lookupT t cam with
  | none => (t, status, [])
  | some p =>
    match poll (status p) with
    | none =>
      if gw then
        (removeT t cam, Function.update status p (.exited (-15)), [.terminated p])
      else
        (removeT t cam, Function.update status p (.exited (-9)), [.terminated p, .killed p])
    | some _ => (removeT t cam, status, [])

/-- `RTSPRecorder.stop_all_recordings`: `stop_recording` over
`list(self.processes.keys())`, threading the table through. -/
def stop_all_go (status : Nat → PStatus) (gw : String → Bool) :
    Table → List String → Table × (Nat → PStatus) × List REvent
  | t, [] => (t, status, [])
  | t, c :: cs =>
    let r := stop_recording t status c (gw c)
    let rest := stop_all_go r.2.1 gw r.1 cs
    (rest.1, rest.2.1, r.2.2 ++ rest.2.2)

def stop_all (t : Table) (status : Nat → PStatus) (gw : String → Bool) :
    Table × (Nat → PStatus) × List REvent :=
  stop_all_go status gw t (keysT t)

/-- The per-camera body of `RTSPRecorder.check_and_restart_recordings`
(lines 172-191): skip disabled cameras; if no process is registered or the
registered process has exited, classify the exit by `returncode`, delete the
stale entry, and call `start_recording`. -/
def check_camera (t : Table) (status : Nat → PStatus) (cam : Camera)
    (lo : LaunchOutcome) : Table × List REvent :=
  if cam.enabled then
    match lookupT t cam.id with
    | some p =>
      match poll (status p) with
      | none => (t, [])
      | some c =>
        let ev := if c = 0 then REvent.completedOk cam.id else REvent.segmentFailed cam.id
        let r := start_recording (removeT t cam.id) status cam.id lo
        (r.1, ev :: r.2)
    | none =>
      let r := start_recording t status cam.id lo
      (r.1, r.2)
  else (t, [])

/-- `check_and_restart_recordings`: the `for camera in self.config['cameras']`
loop, threading the table through. `env` gives each camera's launch outcome
for this reconcile tick. -/
def check_and_restart (status : Nat → PStatus) (env : String → LaunchOutcome) :
    Table → List Camera → Table × List REvent
  | t, [] => (t, [])
  | t, c :: cs =>
    let r := check_camera t status c (env c.id)
    let rest := check_and_restart status env r.1 cs
    (rest.1, r.2 ++ rest.2)

/-- The startup pass of `RTSPRecorder.run` (lines 202-204):
`for camera in self.config['cameras']: if camera['enabled']:
self.start_recording(camera)`. -/
def run_startup (status : Nat → PStatus) (env : String → LaunchOutcome) :
    Table → List Camera → Table × List REvent
  | t, [] => (t, [])
  | t, c :: cs =>
    if c.enabled then
      let r := start_recording t status c.id (env c.id)
      let rest := run_startup status env r.1 cs
      (rest.1, r.2 ++ rest.2)
    else run_startup status env t cs

/-! ## Preview server camera setup (`app.py`, `RTSPWebServer`) -/

/-- A started `CameraStream` worker as created by the preview server. -/
structure CameraStreamW where
  config : Camera
  running : Bool
deriving DecidableEq, Repr

/-- `RTSPWebServer._initialize_cameras` (lines 158-168): for each configured
camera, if `camera_config['enabled']`, create a `CameraStream` and `start()`
it, keyed by camera id. -/
def init_cameras : List Camera → List (String × CameraStreamW)
  | [] => []
  | c :: cs =>
    if c.enabled then (c.id, ⟨c, true⟩) :: init_cameras cs
    else init_cameras cs

/-! ## Equation lemmas for `start_recording` and `check_camera` -/

theorem poll_eq_none_iff (st : PStatus) : poll st = none ↔ st = .running := by
  cases st <;> simp [poll]

/-- A registered, still-running process makes `start_recording` a warning no-op. -/
theorem start_recording_warn (t : Table) (status : Nat → PStatus) (cam : String)
    (lo : LaunchOutcome) (p : Nat) (hl : lookupT t cam = some p)
    (hp : status p = .running) :
    start_recording t status cam lo = (t, [.warnAlreadyRecording cam]) := by
  simp [start_recording, start_recording_exc, hl, poll, hp]

/-- The guard of `start_recording`: no registered running process for `cam`. -/
def NoLiveProc (t : Table) (status : Nat → PStatus) (cam : String) : Prop :=
  ∀ p, lookupT t cam = some p → status p ≠ .running

theorem start_recording_eq_of_guard (t : Table) (status : Nat → PStatus) (cam : String)
    (lo : LaunchOutcome) (hg : NoLiveProc t status cam) :
    start_recording t status cam lo =
      match lo with
      | .raiseToolMissing => (t, [.toolMissing])
      | .raiseOther => (t, [.launchError cam])
      | .spawn pid .running => (setT t cam pid, [.spawned cam pid, .registered cam pid])
      | .spawn pid (.exited _) => (t, [.spawned cam pid, .immediateFailure cam pid]) := by
  cases hl : lookupT t cam with
  | none =>
    cases lo with
    | raiseToolMissing => simp [start_recording, start_recording_exc, hl, handle_launch, start_attempt]
    | raiseOther => simp [start_recording, start_recording_exc, hl, handle_launch, start_attempt]
    | spawn pid settle =>
      cases settle <;>
        simp [start_recording, start_recording_exc, hl, handle_launch, start_attempt, poll]
  | some p =>
    cases hst : status p with
    | running => exact absurd hst (hg p hl)
    | exited c0 =>
      cases lo with
      | raiseToolMissing =>
        simp [start_recording, start_recording_exc, hl, hst, poll, handle_launch, start_attempt]
      | raiseOther =>
        simp [start_recording, start_recording_exc, hl, hst, poll, handle_launch, start_attempt]
      | spawn pid settle =>
        cases settle <;>
          simp [start_recording, start_recording_exc, hl, hst, poll, handle_launch, start_attempt]

/-- `start_recording` for camera `cam` touches no other camera's table entry. -/
theorem start_recording_lookup_ne (t : Table) (status : Nat → PStatus) (cam : String)
    (lo : LaunchOutcome) {c' : String} (h : c' ≠ cam) :
    lookupT (start_recording t status cam lo).1 c' = lookupT t c' := by
  by_cases hg : NoLiveProc t status cam
  · rw [start_recording_eq_of_guard t status cam lo hg]
    cases lo with
    | raiseToolMissing => rfl
    | raiseOther => rfl
    | spawn pid settle =>
      cases settle with
      | running => exact lookupT_setT_ne t pid h
      | exited c => rfl
  · simp only [NoLiveProc, not_forall] at hg
    obtain ⟨p, hl, hrun⟩ := hg
    rw [start_recording_warn t status cam lo p hl (not_not.mp hrun)]

/-- Every `spawned` event emitted by `start_recording` is for its own camera. -/
theorem start_recording_spawned_eq (t : Table) (status : Nat → PStatus) (cam : String)
    (lo : LaunchOutcome) {c' : String} {pid : Nat}
    (h : REvent.spawned c' pid ∈ (start_recording t status cam lo).2) : c' = cam := by
  by_cases hg : NoLiveProc t status cam
  · rw [start_recording_eq_of_guard t status cam lo hg] at h
    cases lo with
    | raiseToolMissing => simp at h
    | raiseOther => simp at h
    | spawn pid' settle =>
      cases settle with
      | running =>
        simp only [List.mem_cons, List.mem_singleton] at h
        rcases h with h | h | h
        · exact (REvent.spawned.injEq _ _ _ _ ▸ h).1
        · exact absurd h (by simp)
        · exact absurd h (by simp)
      | exited c =>
        simp only [List.mem_cons, List.mem_singleton] at h
        rcases h with h | h | h
        · exact (REvent.spawned.injEq _ _ _ _ ▸ h).1
        · exact absurd h (by simp)
        · exact absurd h (by simp)
  · simp only [NoLiveProc, not_forall] at hg
    obtain ⟨p, hl, hrun⟩ := hg
    rw [start_recording_warn t status cam lo p hl (not_not.mp hrun)] at h
    simp at h

/-- Equation lemmas for `check_camera`. -/
theorem check_camera_disabled (t : Table) (status : Nat → PStatus) (cam : Camera)
    (lo : LaunchOutcome) (he : cam.enabled = false) :
    check_camera t status cam lo = (t, []) := by
  simp [check_camera, he]

theorem check_camera_running (t : Table) (status : Nat → PStatus) (cam : Camera)
    (lo : LaunchOutcome) (p : Nat) (he : cam.enabled = true)
    (hl : lookupT t cam.id = some p) (hp : status p = .running) :
    check_camera t status cam lo = (t, []) := by
  simp [check_camera, he, hl, hp, poll]

theorem check_camera_exited (t : Table) (status : Nat → PStatus) (cam : Camera)
    (lo : LaunchOutcome) (p : Nat) (c : Int) (he : cam.enabled = true)
    (hl : lookupT t cam.id = some p) (hp : status p = .exited c) :
    check_camera t status cam lo =
      ((start_recording (removeT t cam.id) status cam.id lo).1,
        (if c = 0 then REvent.completedOk cam.id else REvent.segmentFailed cam.id) ::
          (start_recording (removeT t cam.id) status cam.id lo).2) := by
  simp [check_camera, he, hl, hp, poll]

theorem check_camera_fresh (t : Table) (status : Nat → PStatus) (cam : Camera)
    (lo : LaunchOutcome) (he : cam.enabled = true) (hl : lookupT t cam.id = none) :
    check_camera t status cam lo = start_recording t status cam.id lo := by
  simp [check_camera, he, hl]

/-- `check_camera` for camera `cam` touches no other camera's table entry. -/
theorem check_camera_lookup_ne (t : Table) (status : Nat → PStatus) (cam : Camera)
    (lo : LaunchOutcome) {c' : String} (h : c' ≠ cam.id) :
    lookupT (check_camera t status cam lo).1 c' = lookupT t c' := by
  by_cases he : cam.enabled
  · cases hl : lookupT t cam.id with
    | none =>
      rw [check_camera_fresh t status cam lo he hl]
      exact start_recording_lookup_ne t status cam.id lo h
    | some p =>
      cases hps : status p with
      | running => rw [check_camera_running t status cam lo p he hl hps]
      | exited c =>
        rw [check_camera_exited t status cam lo p c he hl hps]
        rw [start_recording_lookup_ne (removeT t cam.id) status cam.id lo h]
        exact lookupT_removeT_ne t h
  · rw [check_camera_disabled t status cam lo (by simpa using he)]

/-- Every `spawned` event emitted by `check_camera` is for its own camera. -/
theorem check_camera_spawned_eq (t : Table) (status : Nat → PStatus) (cam : Camera)
    (lo : LaunchOutcome) {c' : String} {pid : Nat}
    (h : REvent.spawned c' pid ∈ (check_camera t status cam lo).2) : c' = cam.id := by
  by_cases he : cam.enabled
  · cases hl : lookupT t cam.id with
    | none =>
      rw [check_camera_fresh t status cam lo he hl] at h
      exact start_recording_spawned_eq t status cam.id lo h
    | some p =>
      cases hps : status p with
      | running =>
        rw [check_camera_running t status cam lo p he hl hps] at h
        simp at h
      | exited c =>
        rw [check_camera_exited t status cam lo p c he hl hps] at h
        simp only [List.mem_cons] at h
        rcases h with h | h
        · by_cases hc : c = 0 <;> simp [hc] at h
        · exact start_recording_spawned_eq (removeT t cam.id) status cam.id lo h
  · rw [check_camera_disabled t status cam lo (by simpa using he)] at h
    simp at h

/-! ## Claim theorems -/

/-- Claim C1: `get_frame` returns a copy (fresh buffer, same pixel data) of
the most recently cached frame when `now - last_frame_time < 10`, and `None`
whenever `now - last_frame_time ≥ 10`, for any prior sequence of successful
frame writes (`ws0` arbitrary for the stale direction; a sequence with most
recent write `(f, tw)` for the fresh direction). -/
theorem getFrame_freshness (ws ws0 : List (Frame × Int)) (f : Frame) (tw now : Int)
    (fresh : Nat) :
    (10 ≤ now - (apply_writes initCache ws0).last_frame_time →
      get_frame (apply_writes initCache ws0) now fresh = none)
    ∧ (now - tw < 10 →
      get_frame (apply_writes initCache (ws ++ [(f, tw)])) now fresh
          = some (Frame.copy fresh f)
      ∧ (Frame.copy fresh f).data = f.data ∧ (Frame.copy fresh f).buf = fresh) := by
  constructor
  · intro hstale
    unfold get_frame
    cases hlf : (apply_writes initCache ws0).last_frame with
    | none => rfl
    | some g =>
      have hnl : ¬ now - (apply_writes initCache ws0).last_frame_time < 10 := by omega
      simp [hnl]
  · intro hfresh
    rw [apply_writes_append_last ws (f, tw) initCache]
    exact ⟨by simp [get_frame, hfresh], rfl, rfl⟩

theorem getFrame_freshness_check :
    get_frame (apply_writes initCache [(⟨0, [1, 2]⟩, 100)]) 123 7 = none
    ∧ get_frame (apply_writes initCache ([] ++ [((⟨0, [1, 2]⟩ : Frame), (100 : Int))])) 105 7
        = some (Frame.copy 7 ⟨0, [1, 2]⟩) :=
  ⟨(getFrame_freshness [] [(⟨0, [1, 2]⟩, 100)] ⟨0, [1, 2]⟩ 100 123 7).1 (by decide),
   ((getFrame_freshness [] [] ⟨0, [1, 2]⟩ 100 105 7).2 (by decide)).1⟩

/-- Claim C9: on a worker that has never cached a frame (`last_frame = None`,
`last_frame_time = 0`), `get_frame` returns `None` at every call time, and in
general a frame is returned only when one has actually been cached and the
freshness condition holds. -/
theorem get_frame_requires_cached (s : CameraCacheState) (now : Int) (fresh : Nat)
    (f : Frame) :
    initCache.last_frame_time = 0
    ∧ get_frame initCache now fresh = none
    ∧ (get_frame s now fresh = some f →
        s.last_frame.isSome = true ∧ now - s.last_frame_time < 10) := by
  refine ⟨rfl, rfl, ?_⟩
  intro h
  unfold get_frame at h
  cases hlf : s.last_frame with
  | none => rw [hlf] at h; exact absurd h (by simp)
  | some g =>
    rw [hlf] at h
    by_cases hn : now - s.last_frame_time < 10
    · exact ⟨rfl, hn⟩
    · simp [hn] at h

theorem get_frame_requires_cached_check :
    (⟨some ⟨0, [1]⟩, 0⟩ : CameraCacheState).last_frame.isSome = true
    ∧ (5 : Int) - (⟨some ⟨0, [1]⟩, 0⟩ : CameraCacheState).last_frame_time < 10 :=
  (get_frame_requires_cached ⟨some ⟨0, [1]⟩, 0⟩ 5 3 (Frame.copy 3 ⟨0, [1]⟩)).2.2 (by decide)

/-- Claim C8 (code bug): the `run` loop prints the status line only at check
times whose integer wall-clock value is divisible by 300. With reconnect
delay 30 and first check at time 10, the checks run from time 10 to time 880
(covering, among others, the whole 300-unit interval from 300 to 600) and not
a single status line is emitted, although the code's own comment states the
status is shown every 5 minutes. -/
theorem status_line_cadence_bug :
    run_status_times (loop_ticks 10 30 30) = []
    ∧ (loop_ticks 10 30 30).head? = some 10
    ∧ (loop_ticks 10 30 30).getLast? = some 880 := by decide

/-- Claim C4: `start_recording` is a warning no-op leaving the table unchanged
when the registered process is still running; and a launch whose process has
already exited at the single post-settle poll logs the failure and does not
register the handle. -/
theorem start_recording_guarded (t : Table) (status : Nat → PStatus) (cam : String)
    (lo : LaunchOutcome) (p pid : Nat) (c : Int) :
    (lookupT t cam = some p → status p = .running →
      start_recording t status cam lo = (t, [.warnAlreadyRecording cam]))
    ∧ (NoLiveProc t status cam →
      start_recording t status cam (.spawn pid (.exited c))
          = (t, [.spawned cam pid, .immediateFailure cam pid])) := by
  constructor
  · exact fun hl hp => start_recording_warn t status cam lo p hl hp
  · intro hg
    rw [start_recording_eq_of_guard t status cam _ hg]

theorem start_recording_guarded_check :
    start_recording [("cam1", 5)] (fun _ => PStatus.running) "cam1" .raiseOther
        = ([("cam1", 5)], [.warnAlreadyRecording "cam1"])
    ∧ start_recording [] (fun _ => PStatus.running) "cam1" (.spawn 7 (.exited 1))
        = ([], [.spawned "cam1" 7, .immediateFailure "cam1" 7]) :=
  ⟨(start_recording_guarded [("cam1", 5)] (fun _ => PStatus.running) "cam1"
      .raiseOther 5 7 1).1 (by decide) rfl,
   (start_recording_guarded [] (fun _ => PStatus.running) "cam1"
      .raiseOther 0 7 1).2 (fun q hq => by simp [lookupT] at hq)⟩

/-- Claim C5: for a registered handle, `stop_recording` unregisters it
unconditionally; if it was still running it is asked to terminate, and on a
graceful-wait timeout it is killed; afterwards the process is no longer
running. If it had already exited, only the deletion happens. -/
theorem stop_recording_unregisters (t : Table) (status : Nat → PStatus) (cam : String)
    (gw : Bool) (p : Nat) (h : lookupT t cam = some p) :
    lookupT (stop_recording t status cam gw).1 cam = none
    ∧ (status p = .running →
        REvent.terminated p ∈ (stop_recording t status cam gw).2.2
        ∧ (gw = false → REvent.killed p ∈ (stop_recording t status cam gw).2.2)
        ∧ (stop_recording t status cam gw).2.1 p ≠ .running)
    ∧ (status p ≠ .running → stop_recording t status cam gw = (removeT t cam, status, [])) := by
  cases hst : status p with
  | running =>
    cases gw with
    | true =>
      have hs : stop_recording t status cam true
          = (removeT t cam, Function.update status p (.exited (-15)), [.terminated p]) := by
        simp [stop_recording, h, hst, poll]
      rw [hs]
      refine ⟨lookupT_removeT_self t cam,
        fun _ => ⟨by simp, fun hff => Bool.noConfusion hff, by simp [Function.update_same]⟩,
        fun hr => absurd rfl hr⟩
    | false =>
      have hs : stop_recording t status cam false
          = (removeT t cam, Function.update status p (.exited (-9)),
              [.terminated p, .killed p]) := by
        simp [stop_recording, h, hst, poll]
      rw [hs]
      refine ⟨lookupT_removeT_self t cam,
        fun _ => ⟨by simp, fun _ => by simp, by simp [Function.update_same]⟩,
        fun hr => absurd rfl hr⟩
  | exited c =>
    have hs : stop_recording t status cam gw = (removeT t cam, status, []) := by
      simp [stop_recording, h, hst, poll]
    rw [hs]
    exact ⟨lookupT_removeT_self t cam,
      fun hr => PStatus.noConfusion hr, fun _ => rfl⟩

theorem stop_recording_unregisters_check :
    lookupT (stop_recording [("cam1", 3)] (fun _ => PStatus.running) "cam1" false).1 "cam1" = none
    ∧ REvent.terminated 3 ∈ (stop_recording [("cam1", 3)] (fun _ => PStatus.running) "cam1" false).2.2
    ∧ REvent.killed 3 ∈ (stop_recording [("cam1", 3)] (fun _ => PStatus.running) "cam1" false).2.2
    ∧ (stop_recording [("cam1", 3)] (fun _ => PStatus.running) "cam1" false).2.1 3 ≠ .running := by
  have h := stop_recording_unregisters [("cam1", 3)] (fun _ => PStatus.running) "cam1" false 3
    (by decide)
  exact ⟨h.1, (h.2.1 rfl).1, (h.2.1 rfl).2.1 rfl, (h.2.1 rfl).2.2⟩

/-- Claim C10: `stop_recording` for an unregistered camera id returns without
raising and leaves table and process statuses unchanged; a second
`stop_recording` right after a first one is a no-op; `stop_all` on an empty
table is a no-op. -/
theorem stop_missing_noop (t : Table) (status : Nat → PStatus) (cam : String)
    (gw gw' : Bool) (gwf : String → Bool) :
    (lookupT t cam = none → stop_recording t status cam gw = (t, status, []))
    ∧ stop_recording (stop_recording t status cam gw).1 (stop_recording t status cam gw).2.1 cam gw'
        = ((stop_recording t status cam gw).1, (stop_recording t status cam gw).2.1, [])
    ∧ stop_all [] status gwf = ([], status, []) := by
  have hnone : ∀ (t' : Table) (st : Nat → PStatus) (g : Bool), lookupT t' cam = none →
      stop_recording t' st cam g = (t', st, []) := fun t' st g hn => by
    simp [stop_recording, hn]
  refine ⟨hnone t status gw, ?_, rfl⟩
  rcases hl : lookupT t cam with _ | p
  · have h1 : stop_recording t status cam gw = (t, status, []) := hnone t status gw hl
    rw [h1]
    exact hnone t status gw' hl
  · have hfst : (stop_recording t status cam gw).1 = removeT t cam := by
      cases hst : status p <;> cases gw <;> simp [stop_recording, hl, hst, poll]
    have h2 : lookupT (stop_recording t status cam gw).1 cam = none := by
      rw [hfst]; exact lookupT_removeT_self t cam
    exact hnone _ _ gw' h2

theorem stop_missing_noop_check :
    stop_recording [] (fun _ => PStatus.running) "cam1" true
        = ([], (fun _ => PStatus.running), []) :=
  (stop_missing_noop [] (fun _ => PStatus.running) "cam1" true true (fun _ => true)).1 rfl

/-- Claim C6: every launch failure inside `start_recording` (FFmpeg missing
or any other launch exception) is caught — the function boundary never
returns an escaped exception — the process table keeps no entry for that
camera, and on the next reconcile tick the camera (being enabled and
unregistered) goes straight back into `start_recording`; with a healthy
launch the retry registers a handle again. -/
theorem start_failure_isolated (t : Table) (status : Nat → PStatus) (cam : String)
    (cmr : Camera) (lo : LaunchOutcome) (pid : Nat) :
    (∀ e, start_recording_exc t status cam lo ≠ .error e)
    ∧ ((start_recording t status cam .raiseToolMissing).1 = t
        ∧ (start_recording t status cam .raiseOther).1 = t)
    ∧ (cmr.enabled = true → lookupT t cmr.id = none →
        check_camera t status cmr lo = start_recording t status cmr.id lo
        ∧ lookupT (check_camera t status cmr (.spawn pid .running)).1 cmr.id = some pid) := by
  have hh : ∀ e0, handle_launch t cam (start_attempt t cam lo) ≠ .error e0 := by
    unfold handle_launch start_attempt
    cases lo with
    | raiseToolMissing => intro e0; simp
    | raiseOther => intro e0; simp
    | spawn pid' settle => cases settle <;> (intro e0; simp [poll])
  have hfail : ∀ lo' : LaunchOutcome,
      (lo' = .raiseToolMissing ∨ lo' = .raiseOther) →
      (start_recording t status cam lo').1 = t := by
    intro lo' hlo
    by_cases hg : NoLiveProc t status cam
    · rw [start_recording_eq_of_guard t status cam lo' hg]
      rcases hlo with h | h <;> subst h <;> rfl
    · simp only [NoLiveProc, not_forall] at hg
      obtain ⟨p, hl, hrun⟩ := hg
      rw [start_recording_warn t status cam lo' p hl (not_not.mp hrun)]
  refine ⟨?_, ⟨hfail _ (Or.inl rfl), hfail _ (Or.inr rfl)⟩, ?_⟩
  · intro e
    cases hl : lookupT t cam with
    | none =>
      have heq : start_recording_exc t status cam lo
          = handle_launch t cam (start_attempt t cam lo) := by
        simp [start_recording_exc, hl]
      rw [heq]; exact hh e
    | some p =>
      by_cases hp : poll (status p) = none
      · have heq : start_recording_exc t status cam lo
            = .ok (t, [.warnAlreadyRecording cam]) := by
          simp [start_recording_exc, hl, hp]
        rw [heq]; simp
      · have heq : start_recording_exc t status cam lo
            = handle_launch t cam (start_attempt t cam lo) := by
          simp [start_recording_exc, hl, hp]
        rw [heq]; exact hh e
  · intro he hl
    have hguard : NoLiveProc t status cmr.id := fun q hq => by
      rw [hl] at hq; exact absurd hq (by simp)
    refine ⟨check_camera_fresh t status cmr lo he hl, ?_⟩
    rw [check_camera_fresh t status cmr _ he hl,
      start_recording_eq_of_guard t status cmr.id _ hguard]
    exact lookupT_setT_self t cmr.id pid

/-- `e` is a subprocess-spawn event for camera `camId`. -/
def spawnsForB (camId : String) : REvent → Bool
  | .spawned c _ => c == camId
  | _ => false

theorem start_recording_no_spawn_for (t : Table) (status : Nat → PStatus) (cam : String)
    (lo : LaunchOutcome) {camId : String} (hne : cam ≠ camId) :
    ∀ e ∈ (start_recording t status cam lo).2, spawnsForB camId e = false := by
  intro e he
  cases e with
  | spawned c' pid =>
    have hc : c' = cam := start_recording_spawned_eq t status cam lo he
    subst hc
    simp [spawnsForB]
    exact hne
  | warnAlreadyRecording c => rfl
  | immediateFailure c pid => rfl
  | registered c pid => rfl
  | toolMissing => rfl
  | launchError c => rfl
  | completedOk c => rfl
  | segmentFailed c => rfl
  | terminated pid => rfl
  | killed pid => rfl

theorem check_camera_no_spawn_for (t : Table) (status : Nat → PStatus) (cam : Camera)
    (lo : LaunchOutcome) {camId : String} (hne : cam.id ≠ camId) :
    ∀ e ∈ (check_camera t status cam lo).2, spawnsForB camId e = false := by
  intro e he
  cases e with
  | spawned c' pid =>
    have hc : c' = cam.id := check_camera_spawned_eq t status cam lo he
    subst hc
    simp [spawnsForB]
    exact hne
  | warnAlreadyRecording c => rfl
  | immediateFailure c pid => rfl
  | registered c pid => rfl
  | toolMissing => rfl
  | launchError c => rfl
  | completedOk c => rfl
  | segmentFailed c => rfl
  | terminated pid => rfl
  | killed pid => rfl

theorem run_startup_disabled_untouched (status : Nat → PStatus) (env : String → LaunchOutcome)
    (camId : String) (cams : List Camera)
    (hdis : ∀ c ∈ cams, c.id = camId → c.enabled = false) :
    ∀ t : Table,
      lookupT (run_startup status env t cams).1 camId = lookupT t camId
      ∧ (run_startup status env t cams).2.all (fun e => !(spawnsForB camId e)) = true := by
  induction cams with
  | nil => intro t; exact ⟨rfl, rfl⟩
  | cons c cs ih =>
    intro t
    have hdis' : ∀ c' ∈ cs, c'.id = camId → c'.enabled = false :=
      fun c' hc' => hdis c' (List.mem_cons_of_mem c hc')
    by_cases he : c.enabled
    · have hcid : c.id ≠ camId := fun hic =>
        absurd he (by rw [hdis c (List.mem_cons_self c cs) hic]; exact Bool.false_ne_true)
      simp only [run_startup, if_pos he]
      constructor
      · rw [(ih hdis' _).1]
        exact start_recording_lookup_ne t status c.id (env c.id) (fun hq => hcid hq.symm)
      · rw [List.all_append, Bool.and_eq_true]
        refine ⟨List.all_eq_true.mpr ?_, (ih hdis' _).2⟩
        intro e he2
        have := start_recording_no_spawn_for t status c.id (env c.id) hcid e he2
        simp [this]
    · simp only [run_startup, if_neg he]
      exact ih hdis' t

theorem check_and_restart_disabled_untouched (status : Nat → PStatus)
    (env : String → LaunchOutcome) (camId : String) (cams : List Camera)
    (hdis : ∀ c ∈ cams, c.id = camId → c.enabled = false) :
    ∀ t : Table,
      lookupT (check_and_restart status env t cams).1 camId = lookupT t camId
      ∧ (check_and_restart status env t cams).2.all (fun e => !(spawnsForB camId e)) = true := by
  induction cams with
  | nil => intro t; exact ⟨rfl, rfl⟩
  | cons c cs ih =>
    intro t
    have hdis' : ∀ c' ∈ cs, c'.id = camId → c'.enabled = false :=
      fun c' hc' => hdis c' (List.mem_cons_of_mem c hc')
    by_cases hid : c.id = camId
    · have he : c.enabled = false := hdis c (List.mem_cons_self c cs) hid
      simp only [check_and_restart]
      rw [check_camera_disabled t status c (env c.id) he]
      constructor
      · exact (ih hdis' t).1
      · rw [List.all_append, Bool.and_eq_true]
        exact ⟨rfl, (ih hdis' t).2⟩
    · simp only [check_and_restart]
      constructor
      · rw [(ih hdis' _).1]
        exact check_camera_lookup_ne t status c (env c.id) (fun hq => hid (hq.symm))
      · rw [List.all_append, Bool.and_eq_true]
        refine ⟨List.all_eq_true.mpr ?_, (ih hdis' _).2⟩
        intro e he2
        have := check_camera_no_spawn_for t status c (env c.id) hid e he2
        simp [this]

theorem init_cameras_disabled_absent (cams : List Camera) (camId : String)
    (hdis : ∀ c ∈ cams, c.id = camId → c.enabled = false) :
    lookupT (init_cameras cams) camId = none := by
  induction cams with
  | nil => rfl
  | cons c cs ih =>
    have hdis' : ∀ c' ∈ cs, c'.id = camId → c'.enabled = false :=
      fun c' hc' => hdis c' (List.mem_cons_of_mem c hc')
    by_cases he : c.enabled
    · have hcid : c.id ≠ camId := fun hic =>
        absurd he (by rw [hdis c (List.mem_cons_self c cs) hic]; exact Bool.false_ne_true)
      simp only [init_cameras, if_pos he, lookupT]
      rw [if_neg hcid]
      exact ih hdis'
    · simp only [init_cameras, if_neg he]
      exact ih hdis'

/-- Claim C7: for a camera id all of whose configuration entries are
disabled, the preview server creates and starts no stream worker, and
neither the recorder's startup pass nor any reconcile tick ever registers or
spawns a recording subprocess for it. -/
theorem disabled_camera_untouched (cams : List Camera) (camId : String) (t : Table)
    (status : Nat → PStatus) (env : String → LaunchOutcome)
    (hdis : ∀ c ∈ cams, c.id = camId → c.enabled = false) :
    lookupT (init_cameras cams) camId = none
    ∧ lookupT (run_startup status env t cams).1 camId = lookupT t camId
    ∧ (run_startup status env t cams).2.all (fun e => !(spawnsForB camId e)) = true
    ∧ lookupT (check_and_restart status env t cams).1 camId = lookupT t camId
    ∧ (check_and_restart status env t cams).2.all (fun e => !(spawnsForB camId e)) = true :=
  ⟨init_cameras_disabled_absent cams camId hdis,
   (run_startup_disabled_untouched status env camId cams hdis t).1,
   (run_startup_disabled_untouched status env camId cams hdis t).2,
   (check_and_restart_disabled_untouched status env camId cams hdis t).1,
   (check_and_restart_disabled_untouched status env camId cams hdis t).2⟩

theorem disabled_camera_untouched_check :
    lookupT (init_cameras [⟨"cam1", "a", "u1", false⟩, ⟨"cam2", "b", "u2", true⟩]) "cam1" = none
    ∧ lookupT (run_startup (fun _ => PStatus.running) (fun _ => .spawn 9 .running) []
        [⟨"cam1", "a", "u1", false⟩, ⟨"cam2", "b", "u2", true⟩]).1 "cam1" = lookupT [] "cam1"
    ∧ (run_startup (fun _ => PStatus.running) (fun _ => .spawn 9 .running) []
        [⟨"cam1", "a", "u1", false⟩, ⟨"cam2", "b", "u2", true⟩]).2.all
        (fun e => !(spawnsForB "cam1" e)) = true
    ∧ lookupT (check_and_restart (fun _ => PStatus.running) (fun _ => .spawn 9 .running) []
        [⟨"cam1", "a", "u1", false⟩, ⟨"cam2", "b", "u2", true⟩]).1 "cam1" = lookupT [] "cam1"
    ∧ (check_and_restart (fun _ => PStatus.running) (fun _ => .spawn 9 .running) []
        [⟨"cam1", "a", "u1", false⟩, ⟨"cam2", "b", "u2", true⟩]).2.all
        (fun e => !(spawnsForB "cam1" e)) = true :=
  disabled_camera_untouched [⟨"cam1", "a", "u1", false⟩, ⟨"cam2", "b", "u2", true⟩] "cam1" []
    (fun _ => PStatus.running) (fun _ => .spawn 9 .running) (by decide)

theorem start_failure_isolated_check :
    start_recording_exc [] (fun _ => PStatus.running) "cam1" .raiseToolMissing
        ≠ .error .fileNotFound
    ∧ (start_recording [] (fun _ => PStatus.running) "cam1" .raiseToolMissing).1 = []
    ∧ check_camera [] (fun _ => PStatus.running) ⟨"cam2", "n", "u", true⟩ .raiseToolMissing
        = start_recording [] (fun _ => PStatus.running) "cam2" .raiseToolMissing
    ∧ lookupT (check_camera [] (fun _ => PStatus.running) ⟨"cam2", "n", "u", true⟩
        (.spawn 7 .running)).1 "cam2" = some 7 := by
  have h := start_failure_isolated [] (fun _ => PStatus.running) "cam1"
    ⟨"cam2", "n", "u", true⟩ .raiseToolMissing 7
  exact ⟨h.1 .fileNotFound, h.2.1.1, (h.2.2 rfl rfl).1, (h.2.2 rfl rfl).2⟩

/-! ## Transition system for the recording supervisor (claim C2)

The supervisor's lifetime is a sequence of `start_recording` /
`stop_recording` / reconcile operations interleaved with arbitrary
subprocess exits. The state carries the process table, and as history
bookkeeping the owner camera of every spawned process id, every process's
current status, and a fresh-pid counter (pids are allocated increasingly).
The `spawn` constructors carry exactly the guard checked at
`recorder.py:111`; the spawned process's status at the settle poll is
either still running (then it is registered) or already exited (then it is
not), and `envExit` lets any running process exit at any time. -/

structure RState where
  table : Table
  owner : Nat → Option String
  pstatus : Nat → PStatus
  next : Nat

/-- Initial supervisor state: empty table, no process ever spawned. -/
def initR : RState := ⟨[], fun _ => none, fun _ => .exited 0, 0⟩

inductive RStep : RState → RState → Prop where
  | envExit (s : RState) (p : Nat) (c : Int) :
      s.pstatus p = .running →
      RStep s { s with pstatus := Function.update s.pstatus p (.exited c) }
  | spawnOk (s : RState) (cam : String) :
      NoLiveProc s.table s.pstatus cam →
      RStep s { table := setT s.table cam s.next,
                owner := Function.update s.owner s.next (some cam),
                pstatus := Function.update s.pstatus s.next .running,
                next := s.next + 1 }
  | spawnDead (s : RState) (cam : String) (c : Int) :
      NoLiveProc s.table s.pstatus cam →
      RStep s { table := s.table,
                owner := Function.update s.owner s.next (some cam),
                pstatus := Function.update s.pstatus s.next (.exited c),
                next := s.next + 1 }
  | stopSeg (s : RState) (cam : String) (p : Nat) (c : Int) :
      lookupT s.table cam = some p →
      RStep s { s with
                table := removeT s.table cam,
                pstatus := if s.pstatus p = .running
                  then Function.update s.pstatus p (.exited c) else s.pstatus }
  | delExited (s : RState) (cam : String) (p : Nat) (c : Int) :
      lookupT s.table cam = some p →
      s.pstatus p = .exited c →
      RStep s { s with table := removeT s.table cam }

inductive RReach : RState → Prop where
  | init : RReach initR
  | step {s s' : RState} : RReach s → RStep s s' → RReach s'

/-- A step that spawns a new recording subprocess for camera `cam`. -/
def SpawnsFor (s s' : RState) (cam : String) : Prop :=
  s'.next = s.next + 1 ∧ s'.owner s.next = some cam

/-- Inductive invariant of the supervisor transition system. -/
def RInv (s : RState) : Prop :=
  (∀ p, s.next ≤ p → s.owner p = none)
  ∧ (∀ cam p, lookupT s.table cam = some p → s.owner p = some cam ∧ p < s.next)
  ∧ (∀ cam q, s.owner q = some cam → s.pstatus q = .running → lookupT s.table cam = some q)
  ∧ (keysT s.table).Nodup

theorem rinv_init : RInv initR := by
  refine ⟨fun p _ => rfl, fun cam p h => ?_, fun cam q h => ?_, List.nodup_nil⟩
  · exact absurd h (by simp [initR, lookupT])
  · exact absurd h (by simp [initR])

theorem rinv_step {s s' : RState} (hinv : RInv s) (hstep : RStep s s') : RInv s' := by
  obtain ⟨hfresh, htab, hrun, hnd⟩ := hinv
  cases hstep with
  | envExit p c hp =>
    refine ⟨hfresh, htab, ?_, hnd⟩
    intro cam q hq hrq
    dsimp only at hq hrq ⊢
    by_cases hqp : q = p
    · subst hqp
      rw [Function.update_same] at hrq
      exact absurd hrq (by simp)
    · rw [Function.update_noteq hqp] at hrq
      exact hrun cam q hq hrq
  | spawnOk cam hg =>
    refine ⟨?_, ?_, ?_, keysT_setT_nodup s.table cam s.next hnd⟩
    · intro p hp
      dsimp only at hp ⊢
      have hne : p ≠ s.next := fun hc => by omega
      rw [Function.update_noteq hne]
      exact hfresh p (by omega)
    · intro cam' p hp
      dsimp only at hp ⊢
      by_cases hc : cam' = cam
      · subst hc
        rw [lookupT_setT_self] at hp
        cases hp
        rw [Function.update_same]
        exact ⟨rfl, by omega⟩
      · rw [lookupT_setT_ne s.table s.next hc] at hp
        have h2 := htab cam' p hp
        have hne : p ≠ s.next := by omega
        rw [Function.update_noteq hne]
        exact ⟨h2.1, by omega⟩
    · intro cam' q hq hrq
      dsimp only at hq hrq ⊢
      by_cases hqn : q = s.next
      · subst hqn
        rw [Function.update_same] at hq
        cases hq
        rw [lookupT_setT_self]
      · rw [Function.update_noteq hqn] at hq
        rw [Function.update_noteq hqn] at hrq
        have hl := hrun cam' q hq hrq
        by_cases hc : cam' = cam
        · subst hc
          exact absurd hrq (hg q hl)
        · rw [lookupT_setT_ne s.table s.next hc]
          exact hl
  | spawnDead cam c hg =>
    refine ⟨?_, ?_, ?_, hnd⟩
    · intro p hp
      dsimp only at hp ⊢
      have hne : p ≠ s.next := fun hc => by omega
      rw [Function.update_noteq hne]
      exact hfresh p (by omega)
    · intro cam' p hp
      dsimp only at hp ⊢
      have h2 := htab cam' p hp
      have hne : p ≠ s.next := by omega
      rw [Function.update_noteq hne]
      exact ⟨h2.1, by omega⟩
    · intro cam' q hq hrq
      dsimp only at hq hrq ⊢
      by_cases hqn : q = s.next
      · subst hqn
        rw [Function.update_same] at hrq
        exact absurd hrq (by simp)
      · rw [Function.update_noteq hqn] at hq
        rw [Function.update_noteq hqn] at hrq
        exact hrun cam' q hq hrq
  | stopSeg cam p c hp =>
    refine ⟨hfresh, ?_, ?_, keysT_removeT_nodup s.table cam hnd⟩
    · intro cam' q hq
      dsimp only at hq ⊢
      by_cases hc : cam' = cam
      · subst hc
        rw [lookupT_removeT_self] at hq
        exact absurd hq (by simp)
      · rw [lookupT_removeT_ne s.table hc] at hq
        exact htab cam' q hq
    · intro cam' q hq hrq
      dsimp only at hq hrq ⊢
      by_cases hps : s.pstatus p = .running
      · rw [if_pos hps] at hrq
        by_cases hqp : q = p
        · subst hqp
          rw [Function.update_same] at hrq
          exact absurd hrq (by simp)
        · rw [Function.update_noteq hqp] at hrq
          have hl := hrun cam' q hq hrq
          by_cases hc : cam' = cam
          · subst hc
            rw [hp] at hl
            exact absurd (Option.some.inj hl) (fun hx => hqp hx.symm)
          · rw [lookupT_removeT_ne s.table hc]
            exact hl
      · rw [if_neg hps] at hrq
        have hl := hrun cam' q hq hrq
        by_cases hc : cam' = cam
        · subst hc
          rw [hp] at hl
          have hqp : q = p := (Option.some.inj hl).symm
          subst hqp
          exact absurd hrq hps
        · rw [lookupT_removeT_ne s.table hc]
          exact hl
  | delExited cam p c hp hx =>
    refine ⟨hfresh, ?_, ?_, keysT_removeT_nodup s.table cam hnd⟩
    · intro cam' q hq
      dsimp only at hq ⊢
      by_cases hc : cam' = cam
      · subst hc
        rw [lookupT_removeT_self] at hq
        exact absurd hq (by simp)
      · rw [lookupT_removeT_ne s.table hc] at hq
        exact htab cam' q hq
    · intro cam' q hq hrq
      dsimp only at hq hrq ⊢
      have hl := hrun cam' q hq hrq
      by_cases hc : cam' = cam
      · subst hc
        rw [hp] at hl
        have hqp : q = p := (Option.some.inj hl).symm
        subst hqp
        rw [hx] at hrq
        exact absurd hrq (by simp)
      · rw [lookupT_removeT_ne s.table hc]
        exact hl

theorem rinv_reach {s : RState} (hs : RReach s) : RInv s := by
  induction hs with
  | init => exact rinv_init
  | step _ hstep ih => exact rinv_step ih hstep

/-- Claim C2: in every reachable supervisor state, the process table holds at
most one entry per camera (its keys are duplicate-free), at most one of all
the subprocesses ever spawned for a given camera is still running, and any
step that spawns a new segment for a camera can only fire when that camera
has no registered still-running handle (the guard of `recorder.py:111`). -/
theorem recorder_single_active (s : RState) (hs : RReach s) :
    (keysT s.table).Nodup
    ∧ (∀ cam p q, s.owner p = some cam → s.owner q = some cam →
        s.pstatus p = .running → s.pstatus q = .running → p = q)
    ∧ (∀ s' cam, RStep s s' → SpawnsFor s s' cam → NoLiveProc s.table s.pstatus cam) := by
  obtain ⟨hfresh, htab, hrun, hnd⟩ := rinv_reach hs
  refine ⟨hnd, ?_, ?_⟩
  · intro cam p q hp hq hrp hrq
    have h1 := hrun cam p hp hrp
    have h2 := hrun cam q hq hrq
    rw [h1] at h2
    exact Option.some.inj h2
  · intro s' cam hstep hspawn
    cases hstep with
    | envExit p c hpr =>
      exfalso
      have h1 := hspawn.1
      dsimp only at h1
      omega
    | spawnOk cam0 hg =>
      have hco : some cam0 = some cam := by
        have h2 := hspawn.2
        dsimp only at h2
        rwa [Function.update_same] at h2
      injection hco with hco
      subst hco
      exact hg
    | spawnDead cam0 c hg =>
      have hco : some cam0 = some cam := by
        have h2 := hspawn.2
        dsimp only at h2
        rwa [Function.update_same] at h2
      injection hco with hco
      subst hco
      exact hg
    | stopSeg cam0 p c hpr =>
      exfalso
      have h1 := hspawn.1
      dsimp only at h1
      omega
    | delExited cam0 p c hpr hx =>
      exfalso
      have h1 := hspawn.1
      dsimp only at h1
      omega

/-- The supervisor state right after one successful spawn for `"cam1"`. -/
def s1R : RState :=
  ⟨setT [] "cam1" 0, Function.update (fun _ => none) 0 (some "cam1"),
    Function.update (fun _ => PStatus.exited 0) 0 .running, 1⟩

theorem rreach_s1R : RReach s1R :=
  RReach.step RReach.init
    (RStep.spawnOk initR "cam1" (fun p hp => by simp [initR, lookupT] at hp))

theorem recorder_single_active_check : (keysT s1R.table).Nodup :=
  (recorder_single_active s1R rreach_s1R).1

/-! ## Interleaving of `CameraStream.stop` with the capture thread (claim C3)

`stop()` (app.py:107-115) runs concurrently with `_capture_frames`
(app.py:71-97). We model both threads at the granularity of the individual
Python statements whose interleaving matters for handle release: in the
capture loop, the read-failure cleanup `self.cap.release()` (line 88) and
`self.cap = None` (line 89) are separate actions, and in `stop()` the
check `if self.cap:`, the `self.cap.release()` and the `self.cap = None`
are separate actions.

Capture-handle ids are allocated by `_connect_camera`; `openedOK` records
the ids of successfully opened connections, and `rel h` counts the
`release()` calls performed on handle `h`. `cleanJoins` is history
bookkeeping: it stays `true` as long as every `thread.join(timeout=2)`
performed by `stop()` so far completed with the capture thread already
terminated (it turns `false` the first time a join times out while the
capture loop is still live). -/

/-- Control points of the capture thread `_capture_frames`:
top of the `while self.running` loop, about to call `self.cap.read()`,
about to run line 88 (`self.cap.release()` after a failed read), about to
run line 89 (`self.cap = None`), and terminated. -/
inductive CPc where
  | top
  | read
  | relFail
  | clearFail
  | done
deriving DecidableEq, Repr

/-- Control points of the `stop()` caller: not yet called, after
`self.running = False` (about to join), after the join (about to run
`if self.cap:`), about to call `self.cap.release()`, about to run
`self.cap = None`, escaped with an `AttributeError`, and returned. -/
inductive SPc where
  | idle
  | s1
  | s2
  | s3
  | s4
  | serr
  | sdone
deriving DecidableEq, Repr

structure TState where
  running : Bool
  cap : Option Nat
  nextH : Nat
  openedOK : List Nat
  rel : Nat → Nat
  cpc : CPc
  spc : SPc
  cleanJoins : Bool

/-- `handle.isOpened()`: the connection opened successfully and has not been
released. -/
def isOpenH (s : TState) (h : Nat) : Prop := h ∈ s.openedOK ∧ s.rel h = 0

/-- The reconnect condition of app.py:75:
`self.cap is None or not self.cap.isOpened()`. -/
def capClosed (s : TState) : Prop := ∀ g, s.cap = some g → ¬ isOpenH s g

/-- `_connect_camera` first releases the previously held handle if any
(app.py:51-52). -/
def relOld (s : TState) : Nat → Nat :=
  match s.cap with
  | none => s.rel
  | some g => Function.update s.rel g (s.rel g + 1)

/-- State right after `start()`: loop running, no handle, stop not called. -/
def initT : TState := ⟨true, none, 0, [], fun _ => 0, .top, .idle, true⟩

inductive TStep : TState → TState → Prop where
  | exitLoop (s : TState) : s.cpc = .top → s.running = false →
      TStep s { s with cpc := .done }
  | connectOk (s : TState) : s.cpc = .top → s.running = true → capClosed s →
      TStep s { s with cap := some s.nextH, nextH := s.nextH + 1, openedOK := s.openedOK ++ [s.nextH], rel := relOld s, cpc := .read }
  | connectFail (s : TState) : s.cpc = .top → s.running = true → capClosed s →
      TStep s { s with cap := some s.nextH, nextH := s.nextH + 1, rel := relOld s, cpc := .top }
  | readOk (s : TState) (h : Nat) : s.cpc = .read → s.cap = some h → isOpenH s h →
      TStep s { s with cpc := .top }
  | readFail (s : TState) (h : Nat) : s.cpc = .read → s.cap = some h →
      TStep s { s with cpc := .relFail }
  | readNone (s : TState) : s.cpc = .read → s.cap = none →
      TStep s { s with cpc := .top }
  | readExc (s : TState) (h : Nat) : s.cpc = .read → s.cap = some h →
      TStep s { s with rel := relOld s, cap := none, cpc := .top }
  | relStep (s : TState) (h : Nat) : s.cpc = .relFail → s.cap = some h →
      TStep s { s with rel := Function.update s.rel h (s.rel h + 1), cpc := .clearFail }
  | relNone (s : TState) : s.cpc = .relFail → s.cap = none →
      TStep s { s with cpc := .top }
  | clearStep (s : TState) : s.cpc = .clearFail →
      TStep s { s with cap := none, cpc := .top }
  | sSetRunning (s : TState) : s.spc = .idle →
      TStep s { s with running := false, spc := .s1 }
  | sJoin (s : TState) : s.spc = .s1 →
      TStep s { s with spc := .s2, cleanJoins := s.cleanJoins && decide (s.cpc = .done) }
  | sCheckSome (s : TState) (h : Nat) : s.spc = .s2 → s.cap = some h →
      TStep s { s with spc := .s3 }
  | sCheckNone (s : TState) : s.spc = .s2 → s.cap = none →
      TStep s { s with spc := .sdone }
  | sRelSome (s : TState) (h : Nat) : s.spc = .s3 → s.cap = some h →
      TStep s { s with rel := Function.update s.rel h (s.rel h + 1), spc := .s4 }
  | sRelNone (s : TState) : s.spc = .s3 → s.cap = none →
      TStep s { s with spc := .serr }
  | sClear (s : TState) : s.spc = .s4 →
      TStep s { s with cap := none, spc := .sdone }
  | sRestart (s : TState) : s.spc = .sdone →
      TStep s { s with running := false, spc := .s1 }

inductive TReach : TState → Prop where
  | init : TReach initT
  | step {s s' : TState} : TReach s → TStep s s' → TReach s'

/-- Final state of the double-release interleaving: one handle (id 0) was
opened, a read failed, the capture thread executed line 88's `release()`,
then `stop()`'s join timed out and `stop()` released the same handle again
before either thread cleared `self.cap`. -/
def stopRaceFinal : TState :=
  ⟨false, none, 1, [0],
    Function.update (Function.update (fun _ => 0) 0 1) 0 2, .top, .sdone, false⟩

theorem stopRace_reach : TReach stopRaceFinal := by
  have r0 : TReach initT := TReach.init
  have r1 := TReach.step r0 (TStep.connectOk initT rfl rfl (fun g hg => nomatch hg))
  have r2 := TReach.step r1 (TStep.readFail _ 0 rfl rfl)
  have r3 := TReach.step r2 (TStep.relStep _ 0 rfl rfl)
  have r4 := TReach.step r3 (TStep.sSetRunning _ rfl)
  have r5 := TReach.step r4 (TStep.sJoin _ rfl)
  have r6 := TReach.step r5 (TStep.sCheckSome _ 0 rfl rfl)
  have r7 := TReach.step r6 (TStep.sRelSome _ 0 rfl rfl)
  have r8 := TReach.step r7 (TStep.sClear _ rfl)
  have r9 := TReach.step r8 (TStep.clearStep _ rfl)
  exact r9

/-- Claim C3, counterexample: an interleaving in which `stop()` has returned
(`spc = sdone`) but the successfully opened capture handle 0 has been
released twice — the claim's "released exactly once after `stop()` returns,
even when the capture thread does not finish within the join timeout" is
false on the code. -/
theorem stop_double_release_race :
    TReach stopRaceFinal
    ∧ stopRaceFinal.spc = .sdone
    ∧ 0 ∈ stopRaceFinal.openedOK
    ∧ stopRaceFinal.rel 0 = 2 :=
  ⟨stopRace_reach, rfl, by simp [stopRaceFinal], by simp [stopRaceFinal]⟩

/-! ### The amended release discipline

The exactly-once guarantee does hold whenever no `join` ever timed out with
the capture loop still live (`cleanJoins`). -/

/-- Release bookkeeping while the capture thread alone has performed
releases: the currently held handle is unreleased, every other successfully
opened handle has been released exactly once. -/
def relInvC (cap : Option Nat) (opened : List Nat) (rel : Nat → Nat) : Prop :=
  ∀ h ∈ opened, (cap = some h → rel h = 0) ∧ (cap ≠ some h → rel h = 1)

/-- Every successfully opened handle has been released exactly once. -/
def relDoneC (opened : List Nat) (rel : Nat → Nat) : Prop :=
  ∀ h ∈ opened, rel h = 1

/-- Handle ids at or above the allocation counter are untouched. -/
def freshInvT (s : TState) : Prop :=
  ∀ h, s.nextH ≤ h → h ∉ s.openedOK ∧ s.rel h = 0 ∧ s.cap ≠ some h

/-- Per-control-point invariant of the capture thread. -/
def cInv : CPc → TState → Prop
  | .clearFail, s => relDoneC s.openedOK s.rel
  | _, s => relInvC s.cap s.openedOK s.rel

/-- Per-control-point invariant of a `stop()` call whose joins were all
clean. -/
def jInv : SPc → TState → Prop
  | .idle, _ => True
  | .s1, _ => True
  | .s2, s => relInvC s.cap s.openedOK s.rel
  | .s3, s => relInvC s.cap s.openedOK s.rel ∧ s.cap.isSome = true
  | .s4, s => relDoneC s.openedOK s.rel
  | .serr, _ => False
  | .sdone, s => relDoneC s.openedOK s.rel ∧ s.cap = none

def InvT (s : TState) : Prop :=
  freshInvT s
  ∧ (s.cleanJoins = true → (s.spc = .idle ∨ s.spc = .s1) → cInv s.cpc s)
  ∧ (s.cleanJoins = true → s.spc ≠ .idle → s.spc ≠ .s1 → s.cpc = .done ∧ jInv s.spc s)

theorem relInvC_of_none (opened : List Nat) (rel : Nat → Nat)
    (hd : relDoneC opened rel) : relInvC none opened rel :=
  fun h hh => ⟨fun hcs => Option.noConfusion hcs, fun _ => hd h hh⟩

theorem relInvC_release (opened : List Nat) (rel : Nat → Nat) (g : Nat)
    (hrel : relInvC (some g) opened rel) :
    relDoneC opened (Function.update rel g (rel g + 1)) := by
  intro h hh
  by_cases hgh : h = g
  · subst hgh
    rw [Function.update_same, (hrel h hh).1 rfl]
  · rw [Function.update_noteq hgh]
    exact (hrel h hh).2 (fun hcs => hgh (Option.some.inj hcs).symm)

theorem relOld_eq_of_none {s : TState} (hcap : s.cap = none) : relOld s = s.rel := by
  simp [relOld, hcap]

theorem relOld_eq_of_some {s : TState} {g : Nat} (hcap : s.cap = some g) :
    relOld s = Function.update s.rel g (s.rel g + 1) := by
  simp [relOld, hcap]

theorem capTarget_lt {s : TState} {g : Nat} (hfresh : freshInvT s)
    (hcap : s.cap = some g) : g < s.nextH := by
  by_contra hge
  exact (hfresh g (by omega)).2.2 hcap

theorem opened_lt {s : TState} {h : Nat} (hfresh : freshInvT s)
    (hh : h ∈ s.openedOK) : h < s.nextH := by
  by_contra hge
  exact (hfresh h (by omega)).1 hh

theorem relOld_opened {s : TState} {h : Nat}
    (hrel : relInvC s.cap s.openedOK s.rel) (hcc : capClosed s)
    (hh : h ∈ s.openedOK) : relOld s h = 1 := by
  cases hcap : s.cap with
  | none =>
    rw [relOld_eq_of_none hcap]
    exact (hrel h hh).2 (by rw [hcap]; exact fun hcs => Option.noConfusion hcs)
  | some g =>
    rw [relOld_eq_of_some hcap]
    by_cases hgh : g = h
    · subst hgh
      exact absurd ⟨hh, (hrel g hh).1 hcap⟩ (hcc g hcap)
    · rw [Function.update_noteq (Ne.symm hgh)]
      exact (hrel h hh).2 (by rw [hcap]; exact fun hcs => hgh (Option.some.inj hcs))

theorem relOld_fresh {s : TState} {h : Nat} (hfresh : freshInvT s)
    (hh : s.nextH ≤ h) : relOld s h = 0 := by
  cases hcap : s.cap with
  | none =>
    rw [relOld_eq_of_none hcap]
    exact (hfresh h hh).2.1
  | some g =>
    rw [relOld_eq_of_some hcap]
    have hg := capTarget_lt hfresh hcap
    rw [Function.update_noteq (by omega)]
    exact (hfresh h hh).2.1

theorem tinv_init : InvT initT := by
  refine ⟨?_, ?_, ?_⟩
  · intro h _
    exact ⟨List.not_mem_nil h, rfl, fun hcs => Option.noConfusion hcs⟩
  · intro _ _
    intro h hh
    exact absurd hh (List.not_mem_nil h)
  · intro _ h1 _
    exact absurd rfl h1

theorem tinv_step {s s' : TState} (hinv : InvT s) (hstep : TStep s s') : InvT s' := by
  obtain ⟨hfresh, hc2, hc3⟩ := hinv
  cases hstep with
  | exitLoop htop hrn =>
    refine ⟨hfresh, ?_, ?_⟩
    · intro hcj hsp
      have h0 := hc2 hcj hsp
      rw [htop] at h0
      exact h0
    · intro hcj h1 h2
      exfalso
      have hd := (hc3 hcj h1 h2).1
      rw [htop] at hd
      exact CPc.noConfusion hd
  | connectOk htop hrn hcc =>
    refine ⟨?_, ?_, ?_⟩
    · intro h hh
      have hh' : s.nextH + 1 ≤ h := hh
      refine ⟨?_, relOld_fresh hfresh (by omega), ?_⟩
      · intro hmem
        rcases List.mem_append.mp hmem with hm | hm
        · exact (hfresh h (by omega)).1 hm
        · have := List.mem_singleton.mp hm
          omega
      · intro hcs
        have := Option.some.inj hcs
        omega
    · intro hcj hsp
      have hrel : relInvC s.cap s.openedOK s.rel := by
        have h0 := hc2 hcj hsp
        rw [htop] at h0
        exact h0
      intro h hh
      rcases List.mem_append.mp hh with hm | hm
      · have hlt : h < s.nextH := opened_lt hfresh hm
        constructor
        · intro hcs
          have := Option.some.inj hcs
          omega
        · intro _
          exact relOld_opened hrel hcc hm
      · have heq : h = s.nextH := List.mem_singleton.mp hm
        subst heq
        constructor
        · intro _
          exact relOld_fresh hfresh (le_refl _)
        · intro hne
          exact absurd rfl hne
    · intro hcj h1 h2
      exfalso
      have hd := (hc3 hcj h1 h2).1
      rw [htop] at hd
      exact CPc.noConfusion hd
  | connectFail htop hrn hcc =>
    refine ⟨?_, ?_, ?_⟩
    · intro h hh
      have hh' : s.nextH + 1 ≤ h := hh
      refine ⟨(hfresh h (by omega)).1, relOld_fresh hfresh (by omega), ?_⟩
      intro hcs
      have := Option.some.inj hcs
      omega
    · intro hcj hsp
      have hrel : relInvC s.cap s.openedOK s.rel := by
        have h0 := hc2 hcj hsp
        rw [htop] at h0
        exact h0
      intro h hh
      have hlt : h < s.nextH := opened_lt hfresh hh
      constructor
      · intro hcs
        have := Option.some.inj hcs
        omega
      · intro _
        exact relOld_opened hrel hcc hh
    · intro hcj h1 h2
      exfalso
      have hd := (hc3 hcj h1 h2).1
      rw [htop] at hd
      exact CPc.noConfusion hd
  | readOk h0 hr hcap hopen =>
    refine ⟨hfresh, ?_, ?_⟩
    · intro hcj hsp
      have hrel := hc2 hcj hsp
      rw [hr] at hrel
      exact hrel
    · intro hcj h1 h2
      exfalso
      have hd := (hc3 hcj h1 h2).1
      rw [hr] at hd
      exact CPc.noConfusion hd
  | readFail h0 hr hcap =>
    refine ⟨hfresh, ?_, ?_⟩
    · intro hcj hsp
      have hrel := hc2 hcj hsp
      rw [hr] at hrel
      exact hrel
    · intro hcj h1 h2
      exfalso
      have hd := (hc3 hcj h1 h2).1
      rw [hr] at hd
      exact CPc.noConfusion hd
  | readNone hr hcap =>
    refine ⟨hfresh, ?_, ?_⟩
    · intro hcj hsp
      have hrel := hc2 hcj hsp
      rw [hr] at hrel
      exact hrel
    · intro hcj h1 h2
      exfalso
      have hd := (hc3 hcj h1 h2).1
      rw [hr] at hd
      exact CPc.noConfusion hd
  | readExc h0 hr hcap =>
    refine ⟨?_, ?_, ?_⟩
    · intro h hh
      exact ⟨(hfresh h hh).1, relOld_fresh hfresh hh,
        fun hcs => Option.noConfusion hcs⟩
    · intro hcj hsp
      have hrel : relInvC s.cap s.openedOK s.rel := by
        have h1 := hc2 hcj hsp
        rw [hr] at h1
        exact h1
      rw [hcap] at hrel
      show relInvC none s.openedOK (relOld s)
      rw [relOld_eq_of_some hcap]
      exact relInvC_of_none _ _ (relInvC_release s.openedOK s.rel h0 hrel)
    · intro hcj h1 h2
      exfalso
      have hd := (hc3 hcj h1 h2).1
      rw [hr] at hd
      exact CPc.noConfusion hd
  | relStep h0 hr hcap =>
    refine ⟨?_, ?_, ?_⟩
    · intro h hh
      have hh' : s.nextH ≤ h := hh
      have hlt : h0 < s.nextH := capTarget_lt hfresh hcap
      refine ⟨(hfresh h hh').1, ?_, (hfresh h hh').2.2⟩
      show Function.update s.rel h0 (s.rel h0 + 1) h = 0
      rw [Function.update_noteq (by omega)]
      exact (hfresh h hh').2.1
    · intro hcj hsp
      have hrel : relInvC s.cap s.openedOK s.rel := by
        have h1 := hc2 hcj hsp
        rw [hr] at h1
        exact h1
      rw [hcap] at hrel
      show relDoneC s.openedOK (Function.update s.rel h0 (s.rel h0 + 1))
      exact relInvC_release s.openedOK s.rel h0 hrel
    · intro hcj h1 h2
      exfalso
      have hd := (hc3 hcj h1 h2).1
      rw [hr] at hd
      exact CPc.noConfusion hd
  | relNone hr hcap =>
    refine ⟨hfresh, ?_, ?_⟩
    · intro hcj hsp
      have hrel := hc2 hcj hsp
      rw [hr] at hrel
      exact hrel
    · intro hcj h1 h2
      exfalso
      have hd := (hc3 hcj h1 h2).1
      rw [hr] at hd
      exact CPc.noConfusion hd
  | clearStep hr =>
    refine ⟨?_, ?_, ?_⟩
    · intro h hh
      exact ⟨(hfresh h hh).1, (hfresh h hh).2.1, fun hcs => Option.noConfusion hcs⟩
    · intro hcj hsp
      have hrd : relDoneC s.openedOK s.rel := by
        have h1 := hc2 hcj hsp
        rw [hr] at h1
        exact h1
      show relInvC none s.openedOK s.rel
      exact relInvC_of_none _ _ hrd
    · intro hcj h1 h2
      exfalso
      have hd := (hc3 hcj h1 h2).1
      rw [hr] at hd
      exact CPc.noConfusion hd
  | sSetRunning hsp =>
    refine ⟨hfresh, ?_, ?_⟩
    · intro hcj _
      have h0 := hc2 hcj (Or.inl hsp)
      show cInv s.cpc { s with running := false, spc := SPc.s1 }
      cases hcpc : s.cpc <;> (rw [hcpc] at h0; exact h0)
    · intro _ _ h2
      exact absurd rfl h2
  | sJoin hsp =>
    refine ⟨hfresh, ?_, ?_⟩
    · intro _ hsp2
      rcases hsp2 with h | h <;> exact SPc.noConfusion h
    · intro hcj h1 h2
      have hcj2 : s.cleanJoins = true ∧ decide (s.cpc = CPc.done) = true := by
        have := hcj
        rwa [Bool.and_eq_true] at this
      have hcpc : s.cpc = .done := of_decide_eq_true hcj2.2
      refine ⟨hcpc, ?_⟩
      have h0 := hc2 hcj2.1 (Or.inr hsp)
      rw [hcpc] at h0
      exact h0
  | sCheckSome h0 hsp hcap =>
    refine ⟨hfresh, ?_, ?_⟩
    · intro _ hsp2
      rcases hsp2 with h | h <;> exact SPc.noConfusion h
    · intro hcj _ _
      have hne1 : s.spc ≠ .idle := by
        rw [hsp]; exact fun hx => SPc.noConfusion hx
      have hne2 : s.spc ≠ .s1 := by
        rw [hsp]; exact fun hx => SPc.noConfusion hx
      obtain ⟨hcpc, hj⟩ := hc3 hcj hne1 hne2
      rw [hsp] at hj
      refine ⟨hcpc, hj, ?_⟩
      show s.cap.isSome = true
      rw [hcap]
      rfl
  | sCheckNone hsp hcap =>
    refine ⟨hfresh, ?_, ?_⟩
    · intro _ hsp2
      rcases hsp2 with h | h <;> exact SPc.noConfusion h
    · intro hcj _ _
      have hne1 : s.spc ≠ .idle := by
        rw [hsp]; exact fun hx => SPc.noConfusion hx
      have hne2 : s.spc ≠ .s1 := by
        rw [hsp]; exact fun hx => SPc.noConfusion hx
      obtain ⟨hcpc, hj⟩ := hc3 hcj hne1 hne2
      rw [hsp] at hj
      refine ⟨hcpc, ?_, hcap⟩
      show relDoneC s.openedOK s.rel
      intro h hh
      exact (hj h hh).2 (by rw [hcap]; exact fun hcs => Option.noConfusion hcs)
  | sRelSome h0 hsp hcap =>
    refine ⟨?_, ?_, ?_⟩
    · intro h hh
      have hh' : s.nextH ≤ h := hh
      have hlt : h0 < s.nextH := capTarget_lt hfresh hcap
      refine ⟨(hfresh h hh').1, ?_, (hfresh h hh').2.2⟩
      show Function.update s.rel h0 (s.rel h0 + 1) h = 0
      rw [Function.update_noteq (by omega)]
      exact (hfresh h hh').2.1
    · intro _ hsp2
      rcases hsp2 with h | h <;> exact SPc.noConfusion h
    · intro hcj _ _
      have hne1 : s.spc ≠ .idle := by
        rw [hsp]; exact fun hx => SPc.noConfusion hx
      have hne2 : s.spc ≠ .s1 := by
        rw [hsp]; exact fun hx => SPc.noConfusion hx
      obtain ⟨hcpc, hj⟩ := hc3 hcj hne1 hne2
      rw [hsp] at hj
      have hrel := hj.1
      rw [hcap] at hrel
      refine ⟨hcpc, ?_⟩
      show relDoneC s.openedOK (Function.update s.rel h0 (s.rel h0 + 1))
      exact relInvC_release s.openedOK s.rel h0 hrel
  | sRelNone hsp hcap =>
    refine ⟨hfresh, ?_, ?_⟩
    · intro _ hsp2
      rcases hsp2 with h | h <;> exact SPc.noConfusion h
    · intro hcj _ _
      exfalso
      have hne1 : s.spc ≠ .idle := by
        rw [hsp]; exact fun hx => SPc.noConfusion hx
      have hne2 : s.spc ≠ .s1 := by
        rw [hsp]; exact fun hx => SPc.noConfusion hx
      obtain ⟨hcpc, hj⟩ := hc3 hcj hne1 hne2
      rw [hsp] at hj
      have hsome := hj.2
      rw [hcap] at hsome
      exact Bool.noConfusion hsome
  | sClear hsp =>
    refine ⟨?_, ?_, ?_⟩
    · intro h hh
      exact ⟨(hfresh h hh).1, (hfresh h hh).2.1, fun hcs => Option.noConfusion hcs⟩
    · intro _ hsp2
      rcases hsp2 with h | h <;> exact SPc.noConfusion h
    · intro hcj _ _
      have hne1 : s.spc ≠ .idle := by
        rw [hsp]; exact fun hx => SPc.noConfusion hx
      have hne2 : s.spc ≠ .s1 := by
        rw [hsp]; exact fun hx => SPc.noConfusion hx
      obtain ⟨hcpc, hj⟩ := hc3 hcj hne1 hne2
      rw [hsp] at hj
      exact ⟨hcpc, hj, rfl⟩
  | sRestart hsp =>
    refine ⟨hfresh, ?_, ?_⟩
    · intro hcj _
      have hne1 : s.spc ≠ .idle := by
        rw [hsp]; exact fun hx => SPc.noConfusion hx
      have hne2 : s.spc ≠ .s1 := by
        rw [hsp]; exact fun hx => SPc.noConfusion hx
      obtain ⟨hcpc, hj⟩ := hc3 hcj hne1 hne2
      rw [hsp] at hj
      show cInv s.cpc { s with running := false, spc := SPc.s1 }
      rw [hcpc]
      show relInvC s.cap s.openedOK s.rel
      rw [hj.2]
      exact relInvC_of_none _ _ hj.1
    · intro _ _ h2
      exact absurd rfl h2

theorem tinv_reach {s : TState} (hs : TReach s) : InvT s := by
  induction hs with
  | init => exact tinv_init
  | step _ hstep ih => exact tinv_step ih hstep

/-- Claim C3 (amended): `stop()`'s bounded join can always complete
(`sJoin` is enabled whenever `stop()` is waiting), a repeated `stop()` is
covered by the same reachability (the `sRestart` step), and — provided every
join so far completed with the capture thread already terminated
(`cleanJoins`, i.e. no join timed out while the loop was live) — once
`stop()` has returned, every successfully opened capture handle has been
released exactly once and the cached handle reference is cleared. The
unamended claim (exactly-once even when the thread outlives the join
timeout) is refuted by `stopRaceFinal`. -/
theorem stop_release_amended (s : TState) (hs : TReach s) :
    (s.cleanJoins = true → s.spc = .sdone →
      (∀ h ∈ s.openedOK, s.rel h = 1) ∧ s.cap = none)
    ∧ (s.spc = .s1 →
      TStep s { s with spc := .s2, cleanJoins := s.cleanJoins && decide (s.cpc = .done) }) := by
  have hinv := tinv_reach hs
  refine ⟨?_, fun h1 => TStep.sJoin s h1⟩
  intro hcj hsd
  have hne1 : s.spc ≠ .idle := by
    rw [hsd]; exact fun hx => SPc.noConfusion hx
  have hne2 : s.spc ≠ .s1 := by
    rw [hsd]; exact fun hx => SPc.noConfusion hx
  have hj := (hinv.2.2 hcj hne1 hne2).2
  rw [hsd] at hj
  exact hj

/-- Final state of the clean trace: connect, one good read, `stop()` with the
thread exiting before the join, then check-release-clear. -/
def stopCleanFinal : TState :=
  ⟨false, none, 1, [0], Function.update (fun _ => 0) 0 1, .done, .sdone, true⟩

theorem stopClean_reach : TReach stopCleanFinal := by
  have r0 : TReach initT := TReach.init
  have r1 := TReach.step r0 (TStep.connectOk initT rfl rfl (fun g hg => nomatch hg))
  have r2 := TReach.step r1 (TStep.readOk _ 0 rfl rfl ⟨by simp [initT], rfl⟩)
  have r3 := TReach.step r2 (TStep.sSetRunning _ rfl)
  have r4 := TReach.step r3 (TStep.exitLoop _ rfl rfl)
  have r5 := TReach.step r4 (TStep.sJoin _ rfl)
  have r6 := TReach.step r5 (TStep.sCheckSome _ 0 rfl rfl)
  have r7 := TReach.step r6 (TStep.sRelSome _ 0 rfl rfl)
  have r8 := TReach.step r7 (TStep.sClear _ rfl)
  exact r8

theorem stop_release_amended_check :
    stopCleanFinal.rel 0 = 1 ∧ stopCleanFinal.cap = none :=
  ⟨((stop_release_amended stopCleanFinal stopClean_reach).1 rfl rfl).1 0 (by simp [stopCleanFinal]),
   ((stop_release_amended stopCleanFinal stopClean_reach).1 rfl rfl).2⟩

end CameraVis
